import Mathlib

/-!
Verification of the Task lifecycle / data-access layer of the TaskAPI
service (app/models.py, app/crud.py, app/main.py).

Modelling choices:
- Timestamps (`datetime.now(UTC)`) are modelled as natural numbers; each
  operation that reads the wall clock takes the current time `now : Nat`
  as an explicit argument.  Within one `create_task` call the two
  `default_factory=current_time` reads are modelled as a single instant.
- The SQL store is a `Store`: the list of persisted rows in insertion
  (rowid) order together with the autoincrement counter for the primary
  key.  `session.get(Task, id)` is primary-key lookup, i.e. first row
  whose `id` matches; `session.delete(task)` removes that row.
- `Optional[T]` is `Option T`; a persisted row may still carry `id = none`
  only in unreachable states, mirroring `id: Optional[int]` in models.py.
-/

namespace TaskAPI

/-- Row of the Task table (models.py `class Task`). -/
structure Task where
  id : Option Nat
  title : String
  description : Option String
  status : String
  created_at : Nat
  updated_at : Nat
deriving DecidableEq, Repr

/-- The backing store: rows in insertion order plus the autoincrement
primary-key counter. -/
structure Store where
  tasks : List Task
  nextId : Nat
deriving DecidableEq, Repr

def Store.empty : Store := ⟨[], 1⟩

/-- crud.py `create_task`: build the row with both timestamp defaults,
persist it, and return the refreshed row (with its generated id). -/
def create_task (s : Store) (now : Nat) (title : String)
    (description : Option String := none) (status : String := "pending") :
    Task × Store :=
  let task : Task :=
    { id := some s.nextId, title := title, description := description,
      status := status, created_at := now, updated_at := now }
  (task, { s with tasks := s.tasks ++ [task], nextId := s.nextId + 1 })

/-- crud.py `get_task_by_id`: primary-key lookup. -/
def get_task_by_id (s : Store) (task_id : Nat) : Option Task :=
  s.tasks.find? (fun t => t.id == some task_id)

/-- crud.py `get_all_tasks`: `select(Task).offset(skip).limit(limit)` in
storage (rowid) order. -/
def get_all_tasks (s : Store) (skip : Nat := 0) (limit : Nat := 100) :
    List Task :=
  (s.tasks.drop skip).take limit

/-- crud.py `get_tasks_by_status`: `select(Task).where(Task.status == status)`. -/
def get_tasks_by_status (s : Store) (status : String) : List Task :=
  s.tasks.filter (fun t => t.status == status)

/-- The field assignments of crud.py `update_task` on the fetched row:
each `if <arg> is not None: task.<field> = <arg>` in turn, then
`task.updated_at = datetime.now(UTC)`. -/
def apply_update (t : Task) (title description status : Option String)
    (now : Nat) : Task :=
  let t1 := match title with
    | some v => { t with title := v }
    | none => t
  let t2 := match description with
    | some v => { t1 with description := some v }
    | none => t1
  let t3 := match status with
    | some v => { t2 with status := v }
    | none => t2
  { t3 with updated_at := now }

/-- crud.py `update_task`: fetch by id; on miss return `None` with no
mutation; otherwise overwrite exactly the fields whose argument is not
`None`, refresh `updated_at`, persist, and return the row. -/
def update_task (s : Store) (now : Nat) (task_id : Nat)
    (title : Option String := none) (description : Option String := none)
    (status : Option String := none) : Option Task × Store :=
  match get_task_by_id s task_id with
  | none => (none, s)
  | some t =>
    let t4 := apply_update t title description status now
    (some t4,
     { s with tasks := s.tasks.map (fun u => if u.id == some task_id then t4 else u) })

/-- crud.py `delete_task`: fetch by id; `False` on miss, otherwise remove
that row and return `True`. -/
def delete_task (s : Store) (task_id : Nat) : Bool × Store :=
  match get_task_by_id s task_id with
  | none => (false, s)
  | some _ =>
    (true, { s with tasks := s.tasks.eraseP (fun t => t.id == some task_id) })

/-- crud.py `delete_all_tasks`: select every row, count them, then delete
each selected row in turn; return the pre-removal count. -/
def delete_all_tasks (s : Store) : Nat × Store :=
  let tasks := s.tasks
  let count := tasks.length
  let remaining := tasks.foldl (fun acc t => acc.eraseP (fun u => u.id == t.id)) tasks
  (count, { s with tasks := remaining })

/-! HTTP layer (main.py), for the PUT endpoint claim. -/

/-- schemas.py `TaskUpdate`: each field absent (`None`) or present. -/
structure TaskUpdate where
  title : Option String
  description : Option String
  status : Option String
deriving DecidableEq, Repr

/-- Python truthiness of an `Optional[str]`: `None` and `""` are falsy. -/
def pyTruthyStr : Option String → Bool
  | none => false
  | some v => !v.isEmpty

/-- Outcome of `PUT /tasks/{id}`. -/
inductive PutResult where
  | ok (task : Task) (store : Store)
  | notFound
  | badRequest
deriving DecidableEq, Repr

/-- main.py `update_existing_task`: 400 when
`not any([title, description, status])` (Python truthiness), otherwise run
`update_task` and turn `None` into 404. -/
def update_existing_task (s : Store) (now : Nat) (task_id : Nat)
    (td : TaskUpdate) : PutResult :=
  if !(pyTruthyStr td.title || pyTruthyStr td.description || pyTruthyStr td.status) then
    .badRequest
  else
    match update_task s now task_id td.title td.description td.status with
    | (none, _) => .notFound
    | (some t, s') => .ok t s'

/-! Reachable stores: every state produced from the empty store by the
repository operations, where the wall clock read by an operation is at
least every timestamp already persisted (the clock never runs backwards
between two repository calls). -/

inductive Reachable : Store → Prop
  | init : Reachable Store.empty
  | create (s : Store) (now : Nat) (title : String) (description : Option String)
      (status : String) : Reachable s →
      (∀ t ∈ s.tasks, t.updated_at ≤ now) →
      Reachable (create_task s now title description status).2
  | update (s : Store) (now task_id : Nat)
      (title description status : Option String) : Reachable s →
      (∀ t ∈ s.tasks, t.updated_at ≤ now) →
      Reachable (update_task s now task_id title description status).2
  | delete (s : Store) (task_id : Nat) : Reachable s →
      Reachable (delete_task s task_id).2
  | deleteAll (s : Store) : Reachable s →
      Reachable (delete_all_tasks s).2

/-! Field-level behaviour of the update assignments. -/

lemma apply_update_title (t : Task) (ti d st : Option String) (now : Nat) :
    (apply_update t ti d st now).title = ti.getD t.title := by
  cases ti <;> cases d <;> cases st <;> rfl

lemma apply_update_description (t : Task) (ti d st : Option String) (now : Nat) :
    (apply_update t ti d st now).description = (d.map some).getD t.description := by
  cases ti <;> cases d <;> cases st <;> rfl

lemma apply_update_status (t : Task) (ti d st : Option String) (now : Nat) :
    (apply_update t ti d st now).status = st.getD t.status := by
  cases ti <;> cases d <;> cases st <;> rfl

lemma apply_update_updated_at (t : Task) (ti d st : Option String) (now : Nat) :
    (apply_update t ti d st now).updated_at = now := by
  cases ti <;> cases d <;> cases st <;> rfl

lemma apply_update_created_at (t : Task) (ti d st : Option String) (now : Nat) :
    (apply_update t ti d st now).created_at = t.created_at := by
  cases ti <;> cases d <;> cases st <;> rfl

lemma apply_update_id (t : Task) (ti d st : Option String) (now : Nat) :
    (apply_update t ti d st now).id = t.id := by
  cases ti <;> cases d <;> cases st <;> rfl

/-! Concrete stores used to instantiate the hypotheses of the theorems
below. -/

def sampleTask : Task :=
  { id := some 1, title := "A", description := some "d", status := "pending",
    created_at := 2, updated_at := 2 }

def sampleStore : Store := { tasks := [sampleTask], nextId := 2 }

/-- C1: on an existing id, every supplied field takes the supplied value,
every omitted field keeps its prior value exactly, and `updated_at` is
refreshed to `now`, hence strictly above its prior value when the clock
has advanced. -/
theorem update_supplied_fields_take_effect (s : Store) (now task_id : Nat)
    (t t' : Task) (title description status : Option String)
    (hget : get_task_by_id s task_id = some t)
    (hres : (update_task s now task_id title description status).1 = some t')
    (hsupplied : title.isSome ∨ description.isSome ∨ status.isSome)
    (hclock : t.updated_at < now) :
    t'.title = title.getD t.title ∧
    t'.description = (description.map some).getD t.description ∧
    t'.status = status.getD t.status ∧
    t'.updated_at = now ∧
    t.updated_at < t'.updated_at ∧
    t'.created_at = t.created_at ∧
    t' ∈ (update_task s now task_id title description status).2.tasks := by
  have hmem : t ∈ s.tasks := List.mem_of_find?_eq_some hget
  have hid : (t.id == some task_id) = true := by
    have hget' : s.tasks.find? (fun u => u.id == some task_id) = some t := hget
    have hid0 := List.find?_some hget'
    exact hid0
  unfold update_task at hres ⊢
  rw [hget] at hres ⊢
  simp only [Option.some.injEq] at hres
  subst hres
  refine ⟨apply_update_title .., apply_update_description ..,
    apply_update_status .., apply_update_updated_at .., ?_, apply_update_created_at .., ?_⟩
  · rw [apply_update_updated_at]; exact hclock
  · have h2 := List.mem_map_of_mem
      (f := fun u => if (u.id == some task_id) = true then
        apply_update t title description status now else u) hmem
    simpa [hid] using h2

/-- C1 witness: updating only the title of the sample task. -/
theorem update_supplied_fields_take_effect_witness :
    (update_task sampleStore 5 1 (some "B") none none).1 = some (apply_update sampleTask (some "B") none none 5) ∧
    ((apply_update sampleTask (some "B") none none 5).title = (some "B").getD sampleTask.title ∧
     (apply_update sampleTask (some "B") none none 5).description = sampleTask.description ∧
     (apply_update sampleTask (some "B") none none 5).status = sampleTask.status ∧
     (apply_update sampleTask (some "B") none none 5).updated_at = 5 ∧
     sampleTask.updated_at < (apply_update sampleTask (some "B") none none 5).updated_at ∧
     (apply_update sampleTask (some "B") none none 5).created_at = sampleTask.created_at ∧
     (apply_update sampleTask (some "B") none none 5) ∈
       (update_task sampleStore 5 1 (some "B") none none).2.tasks) := by
  have h := update_supplied_fields_take_effect sampleStore 5 1 sampleTask
    (apply_update sampleTask (some "B") none none 5) (some "B") none none
    (by decide) (by decide) (Or.inl rfl) (by decide)
  exact ⟨by decide, h.1, h.2.1, h.2.2.1, h.2.2.2.1, h.2.2.2.2.1, h.2.2.2.2.2.1, h.2.2.2.2.2.2⟩

/-- C3: a create with valid input returns a task whose generated id is
non-null and whose `created_at` equals its `updated_at`. -/
theorem create_returns_id_and_equal_timestamps (s : Store) (now : Nat)
    (title : String) (description : Option String) (status : String)
    (h1 : 1 ≤ title.length) (h2 : title.length ≤ 200) :
    ((create_task s now title description status).1.id).isSome = true ∧
    (create_task s now title description status).1.created_at =
      (create_task s now title description status).1.updated_at :=
  ⟨rfl, rfl⟩

/-- C3 witness: creating `{title := "A"}` in the empty store. -/
theorem create_returns_id_and_equal_timestamps_witness :
    ((create_task Store.empty 7 "A" none "pending").1.id).isSome = true ∧
    (create_task Store.empty 7 "A" none "pending").1.created_at =
      (create_task Store.empty 7 "A" none "pending").1.updated_at :=
  create_returns_id_and_equal_timestamps Store.empty 7 "A" none "pending"
    (by decide) (by decide)

/-- C4: updating a non-existent id returns the not-found signal (`none`)
and leaves the store completely unchanged. -/
theorem update_missing_id_leaves_store_unchanged (s : Store) (now task_id : Nat)
    (title description status : Option String)
    (h : get_task_by_id s task_id = none) :
    (update_task s now task_id title description status).1 = none ∧
    (update_task s now task_id title description status).2 = s ∧
    (update_task s now task_id title description status).2.tasks.length =
      s.tasks.length := by
  unfold update_task
  rw [h]
  exact ⟨rfl, rfl, rfl⟩

/-- C4 witness: updating id 99, absent from the sample store. -/
theorem update_missing_id_leaves_store_unchanged_witness :
    (update_task sampleStore 5 99 (some "B") none none).1 = none ∧
    (update_task sampleStore 5 99 (some "B") none none).2 = sampleStore ∧
    (update_task sampleStore 5 99 (some "B") none none).2.tasks.length =
      sampleStore.tasks.length :=
  update_missing_id_leaves_store_unchanged sampleStore 5 99
    (some "B") none none (by decide)

/-- C10: an update can never reset a non-null description back to null:
the `None` argument means "leave unchanged" and a supplied value is always
a string. -/
theorem update_preserves_nonnull_description (s : Store) (now task_id : Nat)
    (t t' : Task) (title description status : Option String)
    (hget : get_task_by_id s task_id = some t)
    (hres : (update_task s now task_id title description status).1 = some t')
    (hdesc : t.description.isSome = true) :
    t'.description.isSome = true := by
  unfold update_task at hres
  rw [hget] at hres
  simp only [Option.some.injEq] at hres
  subst hres
  rw [apply_update_description]
  cases description with
  | none => exact hdesc
  | some v => rfl

/-- C10 witness: a title-only update of the sample task (whose description
is non-null) keeps the description non-null. -/
theorem update_preserves_nonnull_description_witness :
    ((update_task sampleStore 5 1 (some "B") none none).1.getD sampleTask).description.isSome = true := by
  have h := update_preserves_nonnull_description sampleStore 5 1 sampleTask
    (apply_update sampleTask (some "B") none none 5) (some "B") none none
    (by decide) (by decide) (by decide)
  exact h

/-- C2: a PUT payload supplying only `description = ""` (the documented way
to clear that field, targeting an existing id) is rejected with 400 by
`update_existing_task`, because `any([...])` treats the supplied empty
string like an absent field — even though the repository layer, reached
directly, would accept it and clear the description. -/
theorem put_empty_description_rejected_despite_field_supplied :
    (TaskUpdate.mk none (some "") none).description.isSome = true ∧
    update_existing_task sampleStore 5 1 (TaskUpdate.mk none (some "") none) =
      PutResult.badRequest ∧
    (update_task sampleStore 5 1 none (some "") none).1.map Task.description =
      some (some "") := by
  exact ⟨rfl, rfl, rfl⟩

/-! deleteAll: folding the per-row deletions over the selected rows
removes every row, because primary keys are unique. -/

lemma foldl_eraseP_self_eq_nil (l : List Task)
    (h : (l.map Task.id).Nodup) :
    l.foldl (fun acc t => acc.eraseP (fun u => u.id == t.id)) l = [] := by
  induction l with
  | nil => rfl
  | cons x xs ih =>
    rw [List.map_cons, List.nodup_cons] at h
    rw [List.foldl_cons, List.eraseP_cons_of_pos (by simp)]
    exact ih h.2

/-- C5: `delete_all_tasks` returns the number of rows present immediately
before the call and leaves zero rows afterwards; on an empty store the
count is 0.  Uniqueness of primary keys (`Nodup` of the ids) is the
standing store constraint. -/
theorem delete_all_counts_before_and_empties (s : Store)
    (h : (s.tasks.map Task.id).Nodup) :
    (delete_all_tasks s).1 = s.tasks.length ∧
    (delete_all_tasks s).2.tasks = [] ∧
    (s.tasks = [] → (delete_all_tasks s).1 = 0) := by
  refine ⟨rfl, ?_, ?_⟩
  · exact foldl_eraseP_self_eq_nil s.tasks h
  · intro he
    simp [delete_all_tasks, he]

/-- C5 witness: deleting all rows of the one-task sample store. -/
theorem delete_all_counts_before_and_empties_witness :
    (delete_all_tasks sampleStore).1 = sampleStore.tasks.length ∧
    (delete_all_tasks sampleStore).2.tasks = [] ∧
    (sampleStore.tasks = [] → (delete_all_tasks sampleStore).1 = 0) :=
  delete_all_counts_before_and_empties sampleStore (by decide)

/-! listByStatus versus listAll: `get_all_tasks` defaults to `limit = 100`,
so on a store with more than 100 rows `get_tasks_by_status` is not a subset
of a default `get_all_tasks` call. -/

def pendingTask (i : Nat) : Task :=
  { id := some (i + 1), title := "t", description := none, status := "pending",
    created_at := 0, updated_at := 0 }

def largeStore : Store :=
  { tasks := (List.range 101).map pendingTask, nextId := 102 }

/-- C6 counterexample: on a store of 101 tasks, all with status "pending",
`get_tasks_by_status` returns all 101 rows while the status-"pending"
subset of a default `get_all_tasks` call has only 100. -/
theorem list_by_status_exceeds_default_list_all :
    get_tasks_by_status largeStore "pending" ≠
      (get_all_tasks largeStore).filter (fun t => t.status == "pending") := by
  intro hEq
  have h1 : (get_tasks_by_status largeStore "pending").length = 101 := rfl
  have h2 : ((get_all_tasks largeStore).filter
      (fun t => t.status == "pending")).length = 100 := rfl
  rw [hEq, h2] at h1
  exact absurd h1 (by decide)

/-- C6 (amended): whenever the `limit` passed to `get_all_tasks` is at
least the number of stored rows — in particular whenever the store holds at
most 100 rows under the defaults — `get_tasks_by_status x` is exactly the
subset of `get_all_tasks` whose status equals `x`, and it is the empty list
(not an error) when no task has status `x`. -/
theorem list_by_status_filters_list_all (s : Store) (x : String) (lim : Nat)
    (h : s.tasks.length ≤ lim) :
    get_tasks_by_status s x =
      (get_all_tasks s 0 lim).filter (fun t => t.status == x) ∧
    ((∀ t ∈ s.tasks, ¬ t.status = x) → get_tasks_by_status s x = []) := by
  have hall : get_all_tasks s 0 lim = s.tasks := by
    unfold get_all_tasks
    rw [List.drop_zero]
    exact List.take_of_length_le h
  refine ⟨by rw [hall]; rfl, ?_⟩
  intro hnone
  unfold get_tasks_by_status
  rw [List.filter_eq_nil_iff]
  intro t ht
  simpa using hnone t ht

/-- C6 witness: the sample store has a single row, within the default
limit. -/
theorem list_by_status_filters_list_all_witness :
    (get_tasks_by_status sampleStore "pending" =
      (get_all_tasks sampleStore 0 100).filter (fun t => t.status == "pending")) ∧
    ((∀ t ∈ sampleStore.tasks, ¬ t.status = "completed") →
      get_tasks_by_status sampleStore "completed" = []) :=
  ⟨(list_by_status_filters_list_all sampleStore "pending" 100 (by decide)).1,
   (list_by_status_filters_list_all sampleStore "completed" 100 (by decide)).2⟩

/-! delete: with unique primary keys, erasing the fetched row removes the
id from the store for good. -/

lemma mem_eraseP_of_neg (l : List Task) (p : Task → Bool) (t : Task)
    (ht : t ∈ l) (hp : p t = false) : t ∈ l.eraseP p := by
  induction l with
  | nil => cases ht
  | cons x xs ih =>
    by_cases hx : p x = true
    · rw [List.eraseP_cons_of_pos hx]
      rcases List.mem_cons.mp ht with rfl | hmem
      · rw [hp] at hx; cases hx
      · exact hmem
    · rw [List.eraseP_cons_of_neg hx]
      rcases List.mem_cons.mp ht with rfl | hmem
      · exact List.mem_cons_self _ _
      · exact List.mem_cons_of_mem _ (ih hmem)

lemma find?_eraseP_eq_none (l : List Task) (task_id : Nat)
    (h : (l.map Task.id).Nodup) :
    (l.eraseP (fun t => t.id == some task_id)).find?
      (fun t => t.id == some task_id) = none := by
  induction l with
  | nil => rfl
  | cons x xs ih =>
    rw [List.map_cons, List.nodup_cons] at h
    by_cases hx : (x.id == some task_id) = true
    · rw [List.eraseP_cons_of_pos (p := fun t : Task => t.id == some task_id) hx]
      rw [List.find?_eq_none]
      intro t ht hp
      apply h.1
      have ht' : t.id = some task_id := by simpa using hp
      have hx' : x.id = some task_id := by simpa using hx
      rw [hx', ← ht']
      exact List.mem_map_of_mem Task.id ht
    · rw [List.eraseP_cons_of_neg (p := fun t : Task => t.id == some task_id) hx,
        List.find?_cons_of_neg (p := fun t : Task => t.id == some task_id) _ hx]
      exact ih h.2

/-- C7: `delete_task` returns `true` exactly when the id exists; after a
successful or failed delete, `get_task_by_id` on that id yields the
not-found signal, and every row with a different id survives. -/
theorem delete_then_get_yields_not_found (s : Store) (task_id : Nat)
    (h : (s.tasks.map Task.id).Nodup) :
    ((delete_task s task_id).1 = true ↔ (get_task_by_id s task_id).isSome = true) ∧
    get_task_by_id (delete_task s task_id).2 task_id = none ∧
    (∀ t ∈ s.tasks, t.id ≠ some task_id → t ∈ (delete_task s task_id).2.tasks) := by
  cases hget : get_task_by_id s task_id with
  | none =>
    refine ⟨?_, ?_, ?_⟩
    · unfold delete_task
      rw [hget]
      simp
    · unfold delete_task
      rw [hget]
      exact hget
    · intro t ht _
      unfold delete_task
      rw [hget]
      exact ht
  | some t0 =>
    refine ⟨?_, ?_, ?_⟩
    · unfold delete_task
      rw [hget]
      simp
    · unfold delete_task
      rw [hget]
      exact find?_eraseP_eq_none s.tasks task_id h
    · intro t ht htid
      unfold delete_task
      rw [hget]
      exact mem_eraseP_of_neg s.tasks _ t ht (by simpa using htid)

/-- C7 witness: deleting the only row of the sample store. -/
theorem delete_then_get_yields_not_found_witness :
    ((delete_task sampleStore 1).1 = true ↔
      (get_task_by_id sampleStore 1).isSome = true) ∧
    get_task_by_id (delete_task sampleStore 1).2 1 = none ∧
    (∀ t ∈ sampleStore.tasks, t.id ≠ some 1 →
      t ∈ (delete_task sampleStore 1).2.tasks) :=
  delete_then_get_yields_not_found sampleStore 1 (by decide)

/-! listAll pagination. -/

def threeStore : Store :=
  { tasks := [pendingTask 0, pendingTask 1,
      { pendingTask 2 with status := "completed" }], nextId := 4 }

/-- C8: `get_all_tasks` drops the first `skip` rows of the stable storage
order and returns at most `limit` of the rest: the result's length is
`min limit (rows - skip)` and its `i`-th element is the `(skip + i)`-th
stored row. -/
theorem list_all_skip_take_pagination (s : Store) (skip lim : Nat)
    (h1 : 1 ≤ lim) (h2 : lim ≤ 1000) :
    (get_all_tasks s skip lim).length = min lim (s.tasks.length - skip) ∧
    (∀ i, i < lim → (get_all_tasks s skip lim)[i]? = s.tasks[skip + i]?) := by
  constructor
  · unfold get_all_tasks
    rw [List.length_take, List.length_drop]
  · intro i hi
    unfold get_all_tasks
    rw [List.getElem?_take_of_lt hi, List.getElem?_drop]

/-- C8 witness: with three stored tasks, `skip = 1, limit = 1` yields
exactly the second task of the stable order. -/
theorem list_all_skip_take_pagination_witness :
    (get_all_tasks threeStore 1 1).length = min 1 (threeStore.tasks.length - 1) ∧
    (get_all_tasks threeStore 1 1)[0]? = threeStore.tasks[1]? :=
  ⟨(list_all_skip_take_pagination threeStore 1 1 (by decide) (by decide)).1,
   (list_all_skip_take_pagination threeStore 1 1 (by decide) (by decide)).2 0
     (by decide)⟩

/-! created_at invariants. -/

lemma foldl_eraseP_sublist (l acc : List Task) :
    (l.foldl (fun acc t => acc.eraseP (fun u => u.id == t.id)) acc).Sublist acc := by
  induction l generalizing acc with
  | nil => exact List.Sublist.refl acc
  | cons x xs ih =>
    rw [List.foldl_cons]
    exact (ih _).trans (List.eraseP_sublist acc)

lemma reachable_created_le_updated (s : Store) (h : Reachable s) :
    ∀ t ∈ s.tasks, t.created_at ≤ t.updated_at := by
  induction h with
  | init =>
    intro t ht
    simp [Store.empty] at ht
  | create s now title d st hr hclk ih =>
    intro t ht
    simp only [create_task, List.mem_append, List.mem_singleton] at ht
    rcases ht with ht | rfl
    · exact ih t ht
    · exact le_refl now
  | update s now task_id ti d st hr hclk ih =>
    intro t ht
    unfold update_task at ht
    cases hget : get_task_by_id s task_id with
    | none =>
      rw [hget] at ht
      exact ih t ht
    | some t0 =>
      rw [hget] at ht
      simp only [List.mem_map] at ht
      obtain ⟨u, hu, hut⟩ := ht
      by_cases hid : (u.id == some task_id) = true
      · rw [if_pos hid] at hut
        subst hut
        rw [apply_update_created_at, apply_update_updated_at]
        have h0mem : t0 ∈ s.tasks := List.mem_of_find?_eq_some hget
        exact le_trans (ih t0 h0mem) (hclk t0 h0mem)
      · rw [if_neg hid] at hut
        subst hut
        exact ih u hu
  | delete s task_id hr ih =>
    intro t ht
    unfold delete_task at ht
    cases hget : get_task_by_id s task_id with
    | none =>
      rw [hget] at ht
      exact ih t ht
    | some t0 =>
      rw [hget] at ht
      exact ih t ((List.eraseP_sublist s.tasks).subset ht)
  | deleteAll s hr ih =>
    intro t ht
    exact ih t ((foldl_eraseP_sublist s.tasks s.tasks).subset ht)

/-- C9: on every reachable store `created_at ≤ updated_at` holds for every
row; and `created_at` is set exactly once at creation, never modified
afterwards: an update (with unique primary keys) preserves every row's
`(id, created_at)` pair, a create only appends a row whose `created_at` is
the creation instant, and the two deletes only remove rows. -/
theorem created_at_le_updated_at_and_set_once :
    (∀ s, Reachable s → ∀ t ∈ s.tasks, t.created_at ≤ t.updated_at) ∧
    (∀ s now task_id title description status, (s.tasks.map Task.id).Nodup →
      ((update_task s now task_id title description status).2.tasks.map
          (fun t => (t.id, t.created_at))) =
        s.tasks.map (fun t => (t.id, t.created_at))) ∧
    (∀ s now title description status,
      (create_task s now title description status).2.tasks =
        s.tasks ++ [(create_task s now title description status).1] ∧
      (create_task s now title description status).1.created_at = now) ∧
    (∀ s task_id, ((delete_task s task_id).2.tasks).Sublist s.tasks) ∧
    (∀ s, ((delete_all_tasks s).2.tasks).Sublist s.tasks) := by
  refine ⟨reachable_created_le_updated, ?_, ?_, ?_, ?_⟩
  · intro s now task_id ti d st hnd
    unfold update_task
    cases hget : get_task_by_id s task_id with
    | none => rfl
    | some t0 =>
      simp only [List.map_map]
      apply List.map_congr_left
      intro u hu
      by_cases hid : (u.id == some task_id) = true
      · have h0mem : t0 ∈ s.tasks := List.mem_of_find?_eq_some hget
        have h0id : (t0.id == some task_id) = true := by
          have hget' : s.tasks.find? (fun v => v.id == some task_id) = some t0 := hget
          have h0 := List.find?_some hget'
          exact h0
        have hu0 : u = t0 := by
          apply List.inj_on_of_nodup_map hnd hu h0mem
          have e1 : u.id = some task_id := by simpa using hid
          have e2 : t0.id = some task_id := by simpa using h0id
          rw [e1, e2]
        subst hu0
        simp only [Function.comp_apply, if_pos hid]
        rw [apply_update_id, apply_update_created_at]
      · simp only [Function.comp_apply, if_neg hid]
  · intro s now title d st
    exact ⟨rfl, rfl⟩
  · intro s task_id
    unfold delete_task
    cases hget : get_task_by_id s task_id with
    | none => exact List.Sublist.refl s.tasks
    | some t0 => exact List.eraseP_sublist s.tasks
  · intro s
    exact foldl_eraseP_sublist s.tasks s.tasks

/-- C9 witness: the row created in the empty store satisfies
`created_at ≤ updated_at`. -/
theorem created_at_le_updated_at_and_set_once_witness :
    (create_task Store.empty 3 "A" none "pending").1.created_at ≤
      (create_task Store.empty 3 "A" none "pending").1.updated_at := by
  have hreach : Reachable (create_task Store.empty 3 "A" none "pending").2 :=
    Reachable.create Store.empty 3 "A" none "pending" Reachable.init
      (by intro t ht; simp [Store.empty] at ht)
  exact created_at_le_updated_at_and_set_once.1 _ hreach _
    (by simp [create_task, Store.empty])

end TaskAPI
